import Mathlib

/-! goconf: a shallow embedding of `main.go`

The Go package `goconf` loads configuration values into a caller-supplied
struct, from a `KEY=VALUE` file when one exists in the working directory and
from the process environment otherwise.

Conventions of the embedding

* Go `string` is Lean `String`; `strings.Split(s, "=")` is modelled by
  `strings_Split s '='` (the source only ever splits on the one-byte
  separator `"="`).
* Go `map[string]string` is a partial function `String → Option String`
  (`ValueMap`): `vm[k] = v` is `ValueMap.set`, `v, ok := vm[k]` is application.
* The ambient state the code reads (working directory, file system,
  environment) is an explicit `World`.
* `reflect` is modelled by explicit field descriptors: a struct value is the
  list of its fields in declaration order, each with its name, the
  `reflect.Kind` of its type, whether it is exported (which is what
  `CanSet` reports for a field reached through a pointer), and its value.
* A call returns `Res.ok`, `Res.err` (an ordinary Go `error` value) or
  `Res.panic` (a run-time panic of `reflect`).
-/

namespace Goconf

/-! ## Strings and `strings.Split` -/

/-- Split a list of characters at every occurrence of `sep`. The result has
one more element than there are occurrences of `sep`; it is never empty. -/
def splitChars (sep : Char) : List Char → List (List Char)
  | [] => [[]]
  | c :: cs =>
    if c = sep then [] :: splitChars sep cs
    else
      match splitChars sep cs with
      | [] => [[c]]
      | h :: t => (c :: h) :: t

/-- Go `strings.Split(s, sep)` for a one-character separator. -/
def strings_Split (s : String) (sep : Char) : List String :=
  (splitChars sep s.data).map String.mk

/-! ## Value maps -/

/-- Go `map[string]string`. -/
abbrev ValueMap := String → Option String

/-- The empty map `map[string]string{}`. -/
def ValueMap.empty : ValueMap := fun _ => none

/-- The map after `vm[k] = v`. -/
def ValueMap.set (vm : ValueMap) (k v : String) : ValueMap :=
  fun k' => if k' = k then some v else vm k'

/-- One iteration of the loop of `makeValueMap` (main.go 134-141). -/
def makeValueMapStep (vm : ValueMap) (line : String) : ValueMap :=
  match strings_Split line '=' with
  | [k, v] => vm.set k v
  | k :: _ => vm.set k ""
  | [] => vm

/-- The function `makeValueMap` (main.go 131-144): creates a value map based on env lines. -/
def makeValueMap (lines : List String) : ValueMap :=
  lines.foldl makeValueMapStep ValueMap.empty

/-! ## Errors and results -/

/-- A Go `error` value, identified by its message (`err.Error()`). -/
structure GoError where
  msg : String
deriving DecidableEq, Repr

deriving instance DecidableEq for Except

/-- The result of a call that can return normally, return an `error`, or panic. -/
inductive Res (α : Type) where
  | ok (a : α)
  | err (e : GoError)
  | panic (msg : String)
deriving DecidableEq, Repr

/-! ## Reflection: kinds, types and values -/

/-- Go `reflect.Kind`. -/
inductive Kind where
  | invalid | bool | int | int8 | int16 | int32 | int64
  | uint | uint8 | uint16 | uint32 | uint64 | uintptr
  | float32 | float64 | complex64 | complex128
  | array | chan | func | interface | map | pointer | slice
  | string | struct | unsafePointer
deriving DecidableEq, Repr

/-- The value held by a struct field: a string for a field of kind `String`,
and an encoding of the value (0 for the zero value) for any other kind. -/
inductive FieldValue where
  | str (s : String)
  | other (enc : Nat)
deriving DecidableEq, Repr

/-- The zero value of a field of the given kind. -/
def zeroValue (k : Kind) : FieldValue :=
  if k = Kind.string then FieldValue.str "" else FieldValue.other 0

/-- Go `reflect.StructField`, as far as the code looks at it: the field's
name, the kind of its type, and whether it is exported. -/
structure StructField where
  name : String
  kind : Kind
  exported : Bool
deriving DecidableEq, Repr

/-- A field of a struct value: its declaration data and its current value. -/
structure Field where
  name : String
  kind : Kind
  exported : Bool
  value : FieldValue
deriving DecidableEq, Repr

/-- The declaration of a field (`typ.Field(i)`). -/
def Field.decl (f : Field) : StructField :=
  { name := f.name, kind := f.kind, exported := f.exported }

/-- The effect of `fieldVal.SetString(v)` on a field. -/
def Field.setString (f : Field) (v : String) : Field :=
  { f with value := FieldValue.str v }

/-- Go `reflect.Type`, as far as the code looks at it. -/
inductive GoType where
  | struct (fields : List StructField)
  | basic (kind : Kind)
deriving DecidableEq, Repr

/-- The method `Type.Kind()`. -/
def GoType.kind : GoType → Kind
  | GoType.struct _ => Kind.struct
  | GoType.basic k => k

/-- The fields of a type, `typ.Field(0) .. typ.Field(typ.NumField()-1)`. -/
def GoType.fields : GoType → List StructField
  | GoType.struct fs => fs
  | GoType.basic _ => []

/-- A value of the type parameter `T` of `Load`: a struct with its fields in
declaration order, or a value of a non-struct type (its kind and an encoding
of the value). -/
inductive GoValue where
  | struct (fields : List Field)
  | other (kind : Kind) (enc : Nat)
deriving DecidableEq, Repr

/-- The dynamic type of a value (`reflect.Value.Type`). -/
def GoValue.typeOf : GoValue → GoType
  | GoValue.struct fs => GoType.struct (fs.map Field.decl)
  | GoValue.other k _ => GoType.basic k

/-- A Go interface value `any`, as `getTypeOfPtr` can receive it: the nil
interface, a pointer (`none` is a nil pointer, `some v` points to `v`), or a
value that is not a pointer. -/
inductive AnyVal where
  | nilIface
  | pointer (p : Option GoValue)
  | nonPointer (v : GoValue)
deriving DecidableEq, Repr

/-! ## The world: working directory, file system, environment -/

/-- An opened file as the scanner sees it: the bytes it delivers, and the
non-EOF read error that ends the stream, if any. -/
structure OpenFile where
  content : String
  readErr : Option GoError
deriving DecidableEq, Repr

/-- The ambient state read by `Load`.
* `getwd`: the result of `os.Getwd()`;
* `join`: the library function `filepath.Join` on two elements;
* `stat p`: whether `os.Stat(p)` returns no error;
* `openFile p`: the result of `os.Open(p)`;
* `env name`: the process environment (`none` when the variable is unset). -/
structure World where
  getwd : Except GoError String
  join : String → String → String
  stat : String → Bool
  openFile : String → Except GoError OpenFile
  env : String → Option String

/-- Go `os.Getenv`: the value of the variable, `""` when it is unset. -/
def os_Getenv (w : World) (name : String) : String :=
  (w.env name).getD ""

/-! ## `bufio.Scanner` with the default split function `ScanLines` -/

/-- Go `bufio.MaxScanTokenSize`: a scanner created by `bufio.NewScanner` fails
on a line that does not fit in a buffer of this many bytes. -/
def maxScanTokenSize : Nat := 64 * 1024

/-- Go `bufio.ErrTooLong`. -/
def ErrTooLong : GoError := ⟨"bufio.Scanner: token too long"⟩

/-- The helper `dropCR` of `bufio.ScanLines`: drop one trailing carriage return. -/
def dropCR (l : List Char) : List Char :=
  if l.getLast? = some (Char.ofNat 13) then l.dropLast else l

/-- The raw lines of a byte stream: the segments between newlines, without a
final empty segment (a trailing newline does not start a new line). -/
def rawLines (content : List Char) : List (List Char) :=
  let segs := splitChars (Char.ofNat 10) content
  if segs.getLast? = some [] then segs.dropLast else segs

/-- The tokens a default `bufio.Scanner` yields on the given content
(`scanner.Text()` at each successful `scanner.Scan()`), or `ErrTooLong` when a
raw line takes `maxScanTokenSize` bytes or more. -/
def scanLines (content : String) : Except GoError (List String) :=
  let raw := rawLines content.data
  if raw.all (fun l => decide ((String.mk l).utf8ByteSize < maxScanTokenSize)) then
    Except.ok (raw.map (fun l => String.mk (dropCR l)))
  else
    Except.error ErrTooLong

/-! ## The functions of `main.go` -/

/-- The function `makeEnvPath` (main.go 164-176): constructs path to env file. -/
def makeEnvPath (w : World) (ep : Option String) : Except GoError String :=
  let env := match ep with
    | none => ".env"
    | some e => e
  match w.getwd with
  | Except.error err => Except.error err
  | Except.ok wd => Except.ok (w.join wd env)

/-- The function `envFileExists` (main.go 158-161): checks if local env file exists. -/
def envFileExists (w : World) (p : String) : Bool :=
  w.stat p

/-- The function `readEnvFromOS` (main.go 147-155): reads environment variables from OS. -/
def readEnvFromOS (w : World) (varNames : List String) : ValueMap :=
  varNames.foldl (fun vm name => vm.set name (os_Getenv w name)) ValueMap.empty

/-- Lines 111-125 of `readEnvFromFile`: open the file and collect the lines the
scanner yields; fail with the error of `os.Open` or with `scanner.Err()`. -/
def readLines (w : World) (envPath : String) : Except GoError (List String) :=
  match w.openFile envPath with
  | Except.error err => Except.error err
  | Except.ok file =>
    match scanLines file.content with
    | Except.error err => Except.error err
    | Except.ok lines =>
      match file.readErr with
      | some err => Except.error err
      | none => Except.ok lines

/-- The function `readEnvFromFile` (main.go 110-128): reads local env file and generates value map. -/
def readEnvFromFile (w : World) (envPath : String) : Except GoError ValueMap :=
  match readLines w envPath with
  | Except.error err => Except.error err
  | Except.ok lines => Except.ok (makeValueMap lines)

/-- The function `getTypeOfPtr` (main.go 41-53): returns type of generic object.
`ptr == nil` holds for the nil interface only; for a nil pointer `val.Elem()`
is the zero `Value`, on which `Type()` panics. -/
def getTypeOfPtr (ptr : AnyVal) : Res GoType :=
  match ptr with
  | AnyVal.nilIface => Res.err ⟨"getTypeOfPtr, generic was null"⟩
  | AnyVal.nonPointer _ => Res.err ⟨"getTypeOfPtr, generic not pointer"⟩
  | AnyVal.pointer none => Res.panic "reflect: call of reflect.Value.Type on zero Value"
  | AnyVal.pointer (some v) => Res.ok v.typeOf

/-- The function `getConfFields` (main.go 56-74): translates struct to array of field names. -/
def getConfFields (s : AnyVal) : Res (List String) :=
  match getTypeOfPtr s with
  | Res.panic m => Res.panic m
  | Res.err err => Res.err err
  | Res.ok typ =>
    if typ.kind ≠ Kind.struct then
      Res.err ⟨"config can only be mapped to struct"⟩
    else
      Res.ok (typ.fields.map StructField.name)

/-- The loop of `assignConfFields` (main.go 85-106) over the fields not yet
visited: the result of the call and the fields as the loop leaves them. -/
def assignLoop (values : ValueMap) : List Field → Res Unit × List Field
  | [] => (Res.ok (), [])
  | f :: rest =>
    match values f.name with
    | none =>
      let r := assignLoop values rest
      (r.1, f :: r.2)
    | some fieldValueStr =>
      if f.exported = false then
        (Res.err ⟨"cannot set field " ++ f.name⟩, f :: rest)
      else if f.kind = Kind.string then
        let r := assignLoop values rest
        (r.1, f.setString fieldValueStr :: r.2)
      else
        (Res.err ⟨"unsupported field type for field " ++ f.name⟩, f :: rest)

/-- The function `assignConfFields` (main.go 77-107): assigns value map back to struct
(strings only). The argument is the pointer `s` (`none` is nil); the result is
what the call returns together with the value `s` points to afterwards. On a
nil pointer `val` is the zero `Value` and `val.Type()` panics. -/
def assignConfFields (s : Option GoValue) (values : ValueMap) : Res Unit × Option GoValue :=
  match s with
  | none => (Res.panic "reflect: call of reflect.Value.Type on zero Value", none)
  | some (GoValue.other k enc) =>
    if k ≠ Kind.struct then
      (Res.err ⟨"input must be a struct pointer"⟩, some (GoValue.other k enc))
    else
      (Res.ok (), some (GoValue.other k enc))
  | some (GoValue.struct fields) =>
    let r := assignLoop values fields
    (r.1, some (GoValue.struct r.2))

/-- The function `Load` (main.go 16-38): load environment variables from file or os.
`c` is the pointer to the config object (`none` is nil), `ep` the optional
name of the env file. The result is what the call returns together with the
value `c` points to afterwards. -/
def Load (w : World) (c : Option GoValue) (ep : Option String) : Res Unit × Option GoValue :=
  match makeEnvPath w ep with
  | Except.error err => (Res.err err, c)
  | Except.ok envPath =>
    if envFileExists w envPath then
      match readEnvFromFile w envPath with
      | Except.error err => (Res.err err, c)
      | Except.ok vm => assignConfFields c vm
    else
      match getConfFields (AnyVal.pointer c) with
      | Res.panic m => (Res.panic m, c)
      | Res.err err => (Res.err err, c)
      | Res.ok envNames =>
        let vm := readEnvFromOS w envNames
        assignConfFields c vm

/-! ## Notions used to state the properties -/

/-- The key of a line: the text before its first `=`, the whole line when it
has none. -/
def lineKey (line : String) : String :=
  String.mk (line.data.takeWhile (fun c => c != '='))

/-- The number of `=` characters of a line. -/
def countEq (line : String) : Nat :=
  line.data.count '='

/-- The text after the first `=` of a line (empty when the line has none). -/
def lineAfter (line : String) : String :=
  String.mk ((line.data.dropWhile (fun c => c != '=')).drop 1)

/-- The value of a line: the text after the `=` when the line has exactly one
`=`, the empty string otherwise. -/
def lineValue (line : String) : String :=
  if countEq line = 1 then lineAfter line else ""

/-- What the loop of `assignConfFields` is to do with one settable string
field: store the value the map has for the field's name, leave the field
alone when its name is not a key. -/
def assignField (values : ValueMap) (f : Field) : Field :=
  match values f.name with
  | some v => f.setString v
  | none => f

/-- The error `assignConfFields` returns at a field it does not assign:
`cannot set field <name>` for an unexported field, and
`unsupported field type for field <name>` otherwise. -/
def fieldError (n : Field) : GoError :=
  if n.exported = true then ⟨"unsupported field type for field " ++ n.name⟩
  else ⟨"cannot set field " ++ n.name⟩

/-- A world for examples: the working directory is `/app`, paths are joined
with a slash, the file `/app/.env` exists with the given content when one is
given, no other file exists, and the environment is `env`. -/
def exampleWorld (file : Option String) (env : String → Option String) : World :=
  { getwd := Except.ok "/app"
    join := fun dir name => dir ++ "/" ++ name
    stat := fun p => file.isSome && p == "/app/.env"
    openFile := fun p =>
      match file with
      | some content =>
        if p = "/app/.env" then Except.ok ⟨content, none⟩
        else Except.error ⟨"open " ++ p ++ ": no such file or directory"⟩
      | none => Except.error ⟨"open " ++ p ++ ": no such file or directory"⟩
    env := env }

/-- A line of `maxScanTokenSize` (65536) letters `x`. -/
def longLine : String :=
  String.mk (List.replicate maxScanTokenSize 'x')

/-- The lines a scanner without a length bound yields on the given content:
the raw lines, each without its trailing carriage return. -/
def fileLines (content : String) : List String :=
  (rawLines content.data).map (fun l => String.mk (dropCR l))

/-- The map with the single entry `k ↦ v`. -/
def ValueMap.single (k v : String) : ValueMap :=
  fun k' => if k' = k then some v else none

/-! ## Lemmas on splitting -/

theorem splitChars_ne_nil (sep : Char) (l : List Char) : splitChars sep l ≠ [] := by
  cases l with
  | nil => simp [splitChars]
  | cons c cs =>
    unfold splitChars
    split
    · simp
    · split <;> simp

theorem splitChars_length (sep : Char) (l : List Char) :
    (splitChars sep l).length = l.count sep + 1 := by
  induction l with
  | nil => simp [splitChars]
  | cons c cs ih =>
    unfold splitChars
    by_cases h : c = sep
    · subst h
      simp [ih]
    · have hc : (c :: cs).count sep = cs.count sep := by
        rw [List.count_cons]
        simp [h]
      rw [if_neg h, hc]
      split
      · rename_i h0
        exact absurd h0 (splitChars_ne_nil sep cs)
      · rename_i hd tl h0
        rw [h0] at ih
        simpa using ih

theorem splitChars_head (sep : Char) (l : List Char) :
    (splitChars sep l).head? = some (l.takeWhile (fun c => c != sep)) := by
  induction l with
  | nil => simp [splitChars]
  | cons c cs ih =>
    unfold splitChars
    by_cases h : c = sep
    · subst h
      simp
    · rw [if_neg h]
      split
      · rename_i h0
        exact absurd h0 (splitChars_ne_nil sep cs)
      · rename_i hd tl h0
        rw [h0] at ih
        simp at ih
        simp [List.takeWhile_cons, h, ih]

theorem splitChars_of_count_zero (sep : Char) (l : List Char) (h : l.count sep = 0) :
    splitChars sep l = [l] := by
  induction l with
  | nil => simp [splitChars]
  | cons c cs ih =>
    have hne : ¬ c = sep := by
      intro hc
      subst hc
      simp at h
    have hcs : cs.count sep = 0 := by
      rw [List.count_cons] at h
      omega
    unfold splitChars
    rw [if_neg hne, ih hcs]

theorem splitChars_of_count_one (sep : Char) (l : List Char) (h : l.count sep = 1) :
    splitChars sep l
      = [l.takeWhile (fun c => c != sep), (l.dropWhile (fun c => c != sep)).drop 1] := by
  induction l with
  | nil => simp at h
  | cons c cs ih =>
    unfold splitChars
    by_cases hc : c = sep
    · subst hc
      have hcs : cs.count c = 0 := by
        simp at h
        exact h
      simp [splitChars_of_count_zero c cs hcs]
    · have hcs : cs.count sep = 1 := by
        rw [List.count_cons] at h
        simp [hc] at h
        exact h
      rw [if_neg hc, ih hcs]
      simp [List.takeWhile_cons, List.dropWhile_cons, hc]

/-- One iteration of the loop of `makeValueMap` stores the value of the line
under the key of the line. -/
theorem makeValueMapStep_eq (vm : ValueMap) (line : String) :
    makeValueMapStep vm line = vm.set (lineKey line) (lineValue line) := by
  have hh := splitChars_head '=' line.data
  have hl := splitChars_length '=' line.data
  unfold makeValueMapStep strings_Split lineKey lineValue lineAfter countEq
  by_cases h1 : line.data.count '=' = 1
  · rw [splitChars_of_count_one _ _ h1]
    simp [h1]
  · rw [if_neg h1]
    rcases hs : splitChars '=' line.data with _ | ⟨a, _ | ⟨b, _ | ⟨c, t⟩⟩⟩
    · exact absurd hs (splitChars_ne_nil _ _)
    · rw [hs] at hh
      simp at hh
      simp [hh]
    · rw [hs] at hl
      simp at hl
      omega
    · rw [hs] at hh
      simp at hh
      simp [hh]

/-! ## Lemmas on `makeValueMap` -/

theorem foldl_step_absent (k : String) :
    ∀ (lines : List String) (vm : ValueMap), (∀ l ∈ lines, lineKey l ≠ k) →
      lines.foldl makeValueMapStep vm k = vm k := by
  intro lines
  induction lines with
  | nil => intro vm _; rfl
  | cons l ls ih =>
    intro vm h
    rw [List.foldl_cons, ih _ (fun x hx => h x (List.mem_cons_of_mem _ hx)),
      makeValueMapStep_eq]
    have hl : lineKey l ≠ k := h l (List.mem_cons_self _ _)
    simp [ValueMap.set, Ne.symm hl]

theorem foldl_step_present (k v : String) :
    ∀ (lines : List String) (vm : ValueMap),
      (∀ l ∈ lines, lineKey l = k → lineValue l = v) →
      ((∃ l ∈ lines, lineKey l = k) ∨ vm k = some v) →
      lines.foldl makeValueMapStep vm k = some v := by
  intro lines
  induction lines with
  | nil =>
    intro vm _ h
    rcases h with ⟨l, hl, _⟩ | h
    · simp at hl
    · exact h
  | cons l ls ih =>
    intro vm hv h
    rw [List.foldl_cons]
    apply ih _ (fun x hx => hv x (List.mem_cons_of_mem _ hx))
    by_cases hk : lineKey l = k
    · right
      rw [makeValueMapStep_eq]
      simp [ValueMap.set, hk, hv l (List.mem_cons_self _ _) hk]
    · rcases h with ⟨x, hx, hxk⟩ | h
      · rcases List.mem_cons.mp hx with rfl | hx
        · exact absurd hxk hk
        · exact Or.inl ⟨x, hx, hxk⟩
      · right
        rw [makeValueMapStep_eq]
        simp [ValueMap.set, Ne.symm hk, h]

theorem foldl_step_isSome (k : String) :
    ∀ (lines : List String) (vm : ValueMap),
      ((∃ l ∈ lines, lineKey l = k) ∨ (vm k).isSome = true) →
      (lines.foldl makeValueMapStep vm k).isSome = true := by
  intro lines
  induction lines with
  | nil =>
    intro vm h
    rcases h with ⟨l, hl, _⟩ | h
    · simp at hl
    · exact h
  | cons l ls ih =>
    intro vm h
    rw [List.foldl_cons]
    apply ih
    by_cases hk : lineKey l = k
    · right
      rw [makeValueMapStep_eq]
      simp [ValueMap.set, hk]
    · rcases h with ⟨x, hx, hxk⟩ | h
      · rcases List.mem_cons.mp hx with rfl | hx
        · exact absurd hxk hk
        · exact Or.inl ⟨x, hx, hxk⟩
      · right
        rw [makeValueMapStep_eq]
        simp [ValueMap.set, Ne.symm hk, h]

theorem makeValueMap_singleton (line : String) :
    makeValueMap [line] = ValueMap.single (lineKey line) (lineValue line) := by
  unfold makeValueMap
  rw [List.foldl_cons, List.foldl_nil, makeValueMapStep_eq]
  rfl

theorem countEq_lineKey (line : String) : countEq (lineKey line) = 0 := by
  unfold countEq lineKey
  rw [List.count_eq_zero]
  intro h
  have := List.mem_takeWhile_imp h
  simp at this

theorem lineKey_of_countEq_zero (line : String) (h : countEq line = 0) :
    lineKey line = line := by
  unfold countEq at h
  unfold lineKey
  have hh := splitChars_head '=' line.data
  rw [splitChars_of_count_zero _ _ h] at hh
  simp at hh
  rw [← hh]

theorem lineKey_append_lineAfter (line : String) (h : 0 < countEq line) :
    line = lineKey line ++ "=" ++ lineAfter line := by
  unfold countEq at h
  have hmem : '=' ∈ line.data := List.count_pos_iff.mp h
  apply String.ext
  simp only [String.data_append, lineKey, lineAfter]
  have hne : line.data.dropWhile (fun c => c != '=') ≠ [] := by
    intro h0
    rw [List.dropWhile_eq_nil_iff] at h0
    have := h0 _ hmem
    simp at this
  have hd := List.head_dropWhile_not (fun c => c != '=') line.data hne
  obtain ⟨x, xs, hx⟩ := List.exists_cons_of_ne_nil hne
  simp only [hx, List.head_cons] at hd
  have hxe : x = '=' := by simpa using hd
  conv_lhs => rw [← List.takeWhile_append_dropWhile (fun c => c != '=') line.data]
  rw [hx, hxe]
  simp

theorem lineKey_key_value (k v : String) (hk : countEq k = 0) :
    lineKey (k ++ "=" ++ v) = k := by
  unfold countEq at hk
  have hh := splitChars_head '=' k.data
  rw [splitChars_of_count_zero _ _ hk] at hh
  simp only [List.head?_cons, Option.some.injEq] at hh
  have hall : ∀ c ∈ k.data, (c != '=') = true := by
    intro c hc
    have hne : c ≠ '=' := by
      intro h0
      subst h0
      exact (List.count_eq_zero.mp hk) hc
    simpa using hne
  apply String.ext
  simp only [lineKey, String.data_append]
  rw [List.append_assoc, List.takeWhile_append_of_pos hall]
  simp

theorem lineAfter_key_value (k v : String) (hk : countEq k = 0) :
    lineAfter (k ++ "=" ++ v) = v := by
  unfold countEq at hk
  have hall : ∀ c ∈ k.data, (c != '=') = true := by
    intro c hc
    have hne : c ≠ '=' := by
      intro h0
      subst h0
      exact (List.count_eq_zero.mp hk) hc
    simpa using hne
  apply String.ext
  simp only [lineAfter, String.data_append]
  rw [List.append_assoc, List.dropWhile_append_of_pos hall]
  simp

theorem lineValue_key_value (k v : String) (hk : countEq k = 0) (hv : countEq v = 0) :
    lineValue (k ++ "=" ++ v) = v := by
  have hc : countEq (k ++ "=" ++ v) = 1 := by
    unfold countEq at *
    simp [List.count_append, hk, hv]
  unfold lineValue
  rw [if_pos hc, lineAfter_key_value k v hk]

/-! ## Properties of `makeValueMap` on a single line -/

/-- C1, as stated, fails on the line `A=B=C`: the whole line is not a key of the
map, and the text before the first `=` is a key, mapped to the empty string. -/
theorem c1_whole_line_is_not_key :
    1 < countEq "A=B=C"
      ∧ makeValueMap ["A=B=C"] "A=B=C" = none
      ∧ makeValueMap ["A=B=C"] "A" = some "" := by
  decide

/-- C1, amended: for a line with more than one `=`, the map of the one-element
list has the single entry (text before the first `=`) ↦ `""`, and the whole
line is not a key; in the map of any list holding the line, the text before
the first `=` is a key and the whole line is not. -/
theorem c1_multi_eq_line (line : String) (h : 1 < countEq line) :
    makeValueMap [line] = ValueMap.single (lineKey line) ""
      ∧ makeValueMap [line] line = none
      ∧ ∀ lines : List String, line ∈ lines →
          (makeValueMap lines (lineKey line)).isSome = true
            ∧ makeValueMap lines line = none := by
  have hne : ∀ l : String, lineKey l ≠ line := by
    intro l hl
    have h0 := countEq_lineKey l
    rw [hl] at h0
    omega
  have hval : lineValue line = "" := by
    unfold lineValue
    rw [if_neg (by omega)]
  refine ⟨?_, ?_, ?_⟩
  · rw [makeValueMap_singleton, hval]
  · rw [makeValueMap_singleton]
    simp [ValueMap.single, Ne.symm (hne line)]
  · intro lines hmem
    constructor
    · exact foldl_step_isSome _ lines _ (Or.inl ⟨line, hmem, rfl⟩)
    · exact foldl_step_absent _ lines _ (fun l _ => hne l)

/-- C1, amended, at the line `A=B=C`. -/
theorem c1_multi_eq_line_witness :
    1 < countEq "A=B=C"
      ∧ (makeValueMap ["A=B=C"] = ValueMap.single (lineKey "A=B=C") ""
        ∧ makeValueMap ["A=B=C"] "A=B=C" = none
        ∧ ∀ lines : List String, "A=B=C" ∈ lines →
            (makeValueMap lines (lineKey "A=B=C")).isSome = true
              ∧ makeValueMap lines "A=B=C" = none) :=
  ⟨by decide, c1_multi_eq_line "A=B=C" (by decide)⟩

/-- C2: for a line with exactly one `=`, the line is (text before) `=` (text
after), and the map of the one-element list has the single entry
(text before) ↦ (text after), both verbatim. -/
theorem c2_single_eq_line (line : String) (h : countEq line = 1) :
    line = lineKey line ++ "=" ++ lineAfter line
      ∧ makeValueMap [line] = ValueMap.single (lineKey line) (lineAfter line) := by
  constructor
  · exact lineKey_append_lineAfter line (by omega)
  · rw [makeValueMap_singleton]
    unfold lineValue
    rw [if_pos h]

/-- C2 at a line with spaces and quotes around the value. -/
theorem c2_single_eq_line_witness :
    countEq " K = \"v\" " = 1
      ∧ (" K = \"v\" " = lineKey " K = \"v\" " ++ "=" ++ lineAfter " K = \"v\" "
        ∧ makeValueMap [" K = \"v\" "]
            = ValueMap.single (lineKey " K = \"v\" ") (lineAfter " K = \"v\" ")) :=
  ⟨by decide, c2_single_eq_line " K = \"v\" " (by decide)⟩

/-- C3: for a line without `=`, the map of the one-element list has the single
entry (whole line) ↦ `""`. -/
theorem c3_no_eq_line (line : String) (h : countEq line = 0) :
    makeValueMap [line] = ValueMap.single line "" := by
  rw [makeValueMap_singleton, lineKey_of_countEq_zero line h]
  unfold lineValue
  rw [if_neg (by omega)]

/-- C3 at the blank line: the single entry `""` ↦ `""`. -/
theorem c3_no_eq_line_witness :
    countEq "" = 0 ∧ makeValueMap [""] = ValueMap.single "" "" :=
  ⟨by decide, c3_no_eq_line "" (by decide)⟩

/-! ## Lemmas on `assignConfFields` and `Load` -/

theorem assignLoop_ok (values : ValueMap) :
    ∀ fs : List Field,
      (∀ f ∈ fs, values f.name ≠ none → f.exported = true ∧ f.kind = Kind.string) →
      assignLoop values fs = (Res.ok (), fs.map (assignField values)) := by
  intro fs
  induction fs with
  | nil => intro _; rfl
  | cons f rest ih =>
    intro h
    have hrest := ih (fun g hg => h g (List.mem_cons_of_mem _ hg))
    have hf := h f (List.mem_cons_self _ _)
    unfold assignLoop
    cases hv : values f.name with
    | none => simp [hrest, assignField, hv]
    | some v =>
      have := hf (by simp [hv])
      simp [hrest, assignField, hv, this.1, this.2]

theorem assignLoop_stops (values : ValueMap) (n : Field) (post : List Field) (v : String)
    (hn : n.kind ≠ Kind.string) (hv : values n.name = some v) :
    ∀ pre : List Field, (∀ f ∈ pre, f.exported = true ∧ f.kind = Kind.string) →
      assignLoop values (pre ++ n :: post)
        = (Res.err (fieldError n), pre.map (assignField values) ++ n :: post) := by
  intro pre
  induction pre with
  | nil =>
    intro _
    simp only [List.nil_append, List.map_nil]
    unfold assignLoop
    cases he : n.exported <;> simp [hv, hn, he, fieldError]
  | cons f rest ih =>
    intro h
    have hrest := ih (fun g hg => h g (List.mem_cons_of_mem _ hg))
    have hf := h f (List.mem_cons_self _ _)
    simp only [List.cons_append, List.map_cons]
    unfold assignLoop
    cases hfv : values f.name with
    | none => simp [hrest, assignField, hfv]
    | some u => simp [hrest, assignField, hfv, hf.1, hf.2]

theorem Load_file_branch (w : World) (c : Option GoValue) (ep : Option String) (p : String)
    (vm : ValueMap) (hp : makeEnvPath w ep = Except.ok p) (he : envFileExists w p = true)
    (hr : readEnvFromFile w p = Except.ok vm) :
    Load w c ep = assignConfFields c vm := by
  unfold Load
  simp [hp, he, hr]

theorem Load_os_branch (w : World) (fs : List Field) (ep : Option String) (p : String)
    (hp : makeEnvPath w ep = Except.ok p) (he : envFileExists w p = false) :
    Load w (some (GoValue.struct fs)) ep
      = assignConfFields (some (GoValue.struct fs)) (readEnvFromOS w (fs.map Field.name)) := by
  unfold Load
  simp [hp, he, getConfFields, getTypeOfPtr, GoValue.typeOf, GoType.kind, GoType.fields,
    Function.comp_def, Field.decl]

theorem foldl_getenv (w : World) (k : String) :
    ∀ (names : List String) (vm : ValueMap),
      names.foldl (fun vm name => vm.set name (os_Getenv w name)) vm k
        = if k ∈ names then some (os_Getenv w k) else vm k := by
  intro names
  induction names with
  | nil => intro vm; simp
  | cons n ns ih =>
    intro vm
    rw [List.foldl_cons, ih]
    by_cases hk : k ∈ ns
    · simp [hk]
    · by_cases hkn : k = n
      · subst hkn
        simp [hk, ValueMap.set]
      · simp [hk, hkn, ValueMap.set]

theorem readEnvFromFile_of_readLines (w : World) (p : String) (lines : List String)
    (h : readLines w p = Except.ok lines) :
    readEnvFromFile w p = Except.ok (makeValueMap lines) := by
  unfold readEnvFromFile
  rw [h]

theorem assignConfFields_ok (values : ValueMap) (fs : List Field)
    (h : ∀ f ∈ fs, values f.name ≠ none → f.exported = true ∧ f.kind = Kind.string) :
    assignConfFields (some (GoValue.struct fs)) values
      = (Res.ok (), some (GoValue.struct (fs.map (assignField values)))) := by
  unfold assignConfFields
  simp [assignLoop_ok values fs h]

theorem assignLoop_untouched (values : ValueMap) :
    ∀ fs : List Field,
      List.Forall₂ (fun f g => values f.name = none → g = f) fs (assignLoop values fs).2 := by
  intro fs
  induction fs with
  | nil => simp [assignLoop]
  | cons f rest ih =>
    have hrefl : List.Forall₂ (fun f g : Field => values f.name = none → g = f) rest rest :=
      List.forall₂_same.mpr (fun _ _ _ => rfl)
    unfold assignLoop
    cases hv : values f.name with
    | none => exact List.Forall₂.cons (fun _ => rfl) ih
    | some v =>
      by_cases he : f.exported = false
      · simp only [he, if_true]
        exact List.Forall₂.cons (fun _ => rfl) hrefl
      · by_cases hk : f.kind = Kind.string
        · simp only [he, hk, if_true, if_false]
          exact List.Forall₂.cons (fun h => by simp [hv] at h) ih
        · simp only [he, hk, if_false]
          exact List.Forall₂.cons (fun _ => rfl) hrefl

theorem Load_file_exists (w : World) (c : Option GoValue) (ep : Option String) (p : String)
    (hp : makeEnvPath w ep = Except.ok p) (he : envFileExists w p = true) :
    Load w c ep
      = match readEnvFromFile w p with
        | Except.error err => (Res.err err, c)
        | Except.ok vm => assignConfFields c vm := by
  unfold Load
  simp [hp, he]

theorem assignConfFields_struct (fs : List Field) (values : ValueMap) :
    assignConfFields (some (GoValue.struct fs)) values
      = ((assignLoop values fs).1, some (GoValue.struct (assignLoop values fs).2)) := rfl

theorem setString_zero (f : Field) (hk : f.kind = Kind.string)
    (hz : f.value = zeroValue f.kind) : f.setString "" = f := by
  cases f with
  | mk name kind exported value =>
    simp only at hk hz
    subst hk
    simp [Field.setString, hz, zeroValue]

/-! ## Properties of `assignConfFields` and `readEnvFromOS` -/

/-- C4: on a record whose fields are all exported string fields,
`assignConfFields` succeeds with any value map; each field whose name is a key
then holds the mapped value, each other field is unchanged, and the outcome
depends on the map only through its values at the record's field names. -/
theorem c4_assign_string_record (fs : List Field) (values : ValueMap)
    (h : ∀ f ∈ fs, f.exported = true ∧ f.kind = Kind.string) :
    assignConfFields (some (GoValue.struct fs)) values
        = (Res.ok (), some (GoValue.struct (fs.map (assignField values))))
      ∧ (∀ (f : Field) (v : String), values f.name = some v →
          assignField values f = { f with value := FieldValue.str v })
      ∧ (∀ f : Field, values f.name = none → assignField values f = f)
      ∧ (∀ values2 : ValueMap, (∀ f ∈ fs, values2 f.name = values f.name) →
          assignConfFields (some (GoValue.struct fs)) values2
            = assignConfFields (some (GoValue.struct fs)) values) := by
  have key : ∀ vm : ValueMap, assignConfFields (some (GoValue.struct fs)) vm
      = (Res.ok (), some (GoValue.struct (fs.map (assignField vm)))) := by
    intro vm
    unfold assignConfFields
    simp [assignLoop_ok vm fs (fun f hf _ => h f hf)]
  refine ⟨key values, ?_, ?_, ?_⟩
  · intro f v hv
    simp [assignField, hv, Field.setString]
  · intro f hv
    simp [assignField, hv]
  · intro values2 h2
    rw [key values2, key values]
    have : fs.map (assignField values2) = fs.map (assignField values) := by
      apply List.map_congr_left
      intro f hf
      simp [assignField, h2 f hf]
    rw [this]

/-- C4 on a record with two string fields and a map with a key for one of
them and a key that names no field. -/
theorem c4_assign_string_record_witness :
    (∀ f ∈ [(⟨"FOO", Kind.string, true, FieldValue.str "old"⟩ : Field),
            ⟨"BAR", Kind.string, true, FieldValue.str "keep"⟩],
        f.exported = true ∧ f.kind = Kind.string)
      ∧ assignConfFields
          (some (GoValue.struct [⟨"FOO", Kind.string, true, FieldValue.str "old"⟩,
            ⟨"BAR", Kind.string, true, FieldValue.str "keep"⟩]))
          ((ValueMap.single "FOO" "bar").set "QUX" "1")
        = (Res.ok (),
            some (GoValue.struct [⟨"FOO", Kind.string, true, FieldValue.str "bar"⟩,
              ⟨"BAR", Kind.string, true, FieldValue.str "keep"⟩])) :=
  ⟨by decide,
    (c4_assign_string_record
      [⟨"FOO", Kind.string, true, FieldValue.str "old"⟩,
        ⟨"BAR", Kind.string, true, FieldValue.str "keep"⟩]
      ((ValueMap.single "FOO" "bar").set "QUX" "1") (by decide)).1.trans (by decide)⟩

/-- C5: when `n` is the first field whose name is a key of the map and whose
type is not string, all earlier fields being exported strings, then
`assignConfFields`, and `Load` in either branch when it assigns this map,
returns an error that names `n`; the earlier fields whose names are keys hold
the mapped values, `n` and the later fields are unchanged. -/
theorem c5_first_non_string_field (pre post : List Field) (n : Field) (values : ValueMap)
    (v : String) (hpre : ∀ f ∈ pre, f.exported = true ∧ f.kind = Kind.string)
    (hn : n.kind ≠ Kind.string) (hv : values n.name = some v) :
    assignConfFields (some (GoValue.struct (pre ++ n :: post))) values
        = (Res.err (fieldError n),
            some (GoValue.struct (pre.map (assignField values) ++ n :: post)))
      ∧ (∀ (w : World) (ep : Option String) (p : String),
          makeEnvPath w ep = Except.ok p → envFileExists w p = true →
          readEnvFromFile w p = Except.ok values →
          Load w (some (GoValue.struct (pre ++ n :: post))) ep
            = (Res.err (fieldError n),
                some (GoValue.struct (pre.map (assignField values) ++ n :: post))))
      ∧ (∀ (w : World) (ep : Option String) (p : String),
          makeEnvPath w ep = Except.ok p → envFileExists w p = false →
          readEnvFromOS w ((pre ++ n :: post).map Field.name) = values →
          Load w (some (GoValue.struct (pre ++ n :: post))) ep
            = (Res.err (fieldError n),
                some (GoValue.struct (pre.map (assignField values) ++ n :: post))))
      ∧ (fieldError n).msg = (if n.exported = true then "unsupported field type for field "
          else "cannot set field ") ++ n.name := by
  have key : assignConfFields (some (GoValue.struct (pre ++ n :: post))) values
      = (Res.err (fieldError n),
          some (GoValue.struct (pre.map (assignField values) ++ n :: post))) := by
    unfold assignConfFields
    simp [assignLoop_stops values n post v hn hv pre hpre]
  refine ⟨key, ?_, ?_, ?_⟩
  · intro w ep p hp he hr
    rw [Load_file_branch w _ ep p values hp he hr, key]
  · intro w ep p hp he hr
    rw [Load_os_branch w _ ep p hp he, hr, key]
  · unfold fieldError
    split <;> rfl

/-- C5 on the record `FOO string; N int; BAR string` with a key for each field. -/
theorem c5_first_non_string_field_witness :
    (∀ f ∈ [(⟨"FOO", Kind.string, true, FieldValue.str ""⟩ : Field)],
        f.exported = true ∧ f.kind = Kind.string)
      ∧ Kind.int ≠ Kind.string
      ∧ (((ValueMap.single "FOO" "a").set "N" "5").set "BAR" "b") "N" = some "5"
      ∧ assignConfFields
          (some (GoValue.struct [⟨"FOO", Kind.string, true, FieldValue.str ""⟩,
            ⟨"N", Kind.int, true, FieldValue.other 0⟩,
            ⟨"BAR", Kind.string, true, FieldValue.str ""⟩]))
          (((ValueMap.single "FOO" "a").set "N" "5").set "BAR" "b")
        = (Res.err ⟨"unsupported field type for field N"⟩,
            some (GoValue.struct [⟨"FOO", Kind.string, true, FieldValue.str "a"⟩,
              ⟨"N", Kind.int, true, FieldValue.other 0⟩,
              ⟨"BAR", Kind.string, true, FieldValue.str ""⟩])) :=
  ⟨by decide, by decide, by decide,
    (c5_first_non_string_field [⟨"FOO", Kind.string, true, FieldValue.str ""⟩]
      [⟨"BAR", Kind.string, true, FieldValue.str ""⟩]
      ⟨"N", Kind.int, true, FieldValue.other 0⟩
      (((ValueMap.single "FOO" "a").set "N" "5").set "BAR" "b") "5"
      (by decide) (by decide) (by decide)).1.trans (by decide)⟩

/-- C7: the map returned by `readEnvFromOS` has exactly the requested names as
keys; each name maps to the environment's value for that name when it is set
and to the empty string when it is unset. -/
theorem c7_readEnvFromOS (w : World) (names : List String) (k : String) :
    readEnvFromOS w names k
      = if k ∈ names then
          some (match w.env k with
            | some v => v
            | none => "")
        else none := by
  unfold readEnvFromOS
  rw [foldl_getenv]
  unfold os_Getenv ValueMap.empty
  cases w.env k <;> rfl

/-! ## Properties of `Load` -/

/-- C6, as stated, fails on the file with the lines `FOO=bar` and `FOO`: the
only line with `FOO` before its first `=` is `FOO=bar`, and `Load` succeeds,
but the bare line `FOO` resets the key, so the field `FOO` ends up empty. -/
theorem c6_bare_line_resets_key :
    makeEnvPath (exampleWorld (some "FOO=bar\nFOO\n") (fun _ => none)) none
        = Except.ok "/app/.env"
      ∧ envFileExists (exampleWorld (some "FOO=bar\nFOO\n") (fun _ => none)) "/app/.env" = true
      ∧ readLines (exampleWorld (some "FOO=bar\nFOO\n") (fun _ => none)) "/app/.env"
          = Except.ok ["FOO=bar", "FOO"]
      ∧ (∀ l ∈ ["FOO=bar", "FOO"], 0 < countEq l → lineKey l = "FOO" → l = "FOO=bar")
      ∧ countEq "bar" = 0
      ∧ Load (exampleWorld (some "FOO=bar\nFOO\n") (fun _ => none))
          (some (GoValue.struct [⟨"FOO", Kind.string, true, FieldValue.str "old"⟩])) none
        = (Res.ok (), some (GoValue.struct [⟨"FOO", Kind.string, true, FieldValue.str ""⟩])) := by
  decide

/-- C6, amended: for a record whose fields are all exported strings with a
field named `FOO`, and an env file that exists at the resolved path and is
read without error as lines among which `FOO=bar` occurs and is the only line
whose key (the text before its first `=`, the whole line when it has none) is
`FOO`, `Load` succeeds and the field `FOO` holds `bar`. -/
theorem c6_load_key_value_from_file (w : World) (ep : Option String) (p : String)
    (lines : List String) (pre post : List Field) (foo : Field) (bar : String)
    (hp : makeEnvPath w ep = Except.ok p) (he : envFileExists w p = true)
    (hr : readLines w p = Except.ok lines)
    (hfs : ∀ f ∈ pre ++ foo :: post, f.exported = true ∧ f.kind = Kind.string)
    (hname : foo.name = "FOO") (hbar : countEq bar = 0)
    (hmem : "FOO=" ++ bar ∈ lines)
    (honly : ∀ l ∈ lines, lineKey l = "FOO" → l = "FOO=" ++ bar) :
    Load w (some (GoValue.struct (pre ++ foo :: post))) ep
      = (Res.ok (),
          some (GoValue.struct
            (pre.map (assignField (makeValueMap lines))
              ++ { foo with value := FieldValue.str bar }
              :: post.map (assignField (makeValueMap lines))))) := by
  have hlit : ("FOO=" : String) = "FOO" ++ "=" := by decide
  have hfoo : countEq "FOO" = 0 := by decide
  have hkey : lineKey ("FOO=" ++ bar) = "FOO" := by
    rw [hlit]
    exact lineKey_key_value "FOO" bar hfoo
  have hval : lineValue ("FOO=" ++ bar) = bar := by
    rw [hlit]
    exact lineValue_key_value "FOO" bar hfoo hbar
  have hvm : makeValueMap lines "FOO" = some bar := by
    unfold makeValueMap
    apply foldl_step_present
    · intro l hl hk
      rw [honly l hl hk, hval]
    · exact Or.inl ⟨_, hmem, hkey⟩
  rw [Load_file_branch w _ ep p _ hp he (readEnvFromFile_of_readLines w p lines hr),
    assignConfFields_ok _ _ (fun f hf _ => hfs f hf)]
  simp [assignField, hname, hvm, Field.setString]

/-- C6, amended, on the record `HOST string; FOO string` and the file with
the lines `HOST=h`, `FOO=bar`, `FOO=bar`. -/
theorem c6_load_key_value_from_file_witness :
    Load (exampleWorld (some "HOST=h\nFOO=bar\nFOO=bar\n") (fun _ => none))
        (some (GoValue.struct [⟨"HOST", Kind.string, true, FieldValue.str ""⟩,
          ⟨"FOO", Kind.string, true, FieldValue.str ""⟩])) none
      = (Res.ok (),
          some (GoValue.struct [⟨"HOST", Kind.string, true, FieldValue.str "h"⟩,
            ⟨"FOO", Kind.string, true, FieldValue.str "bar"⟩])) :=
  (c6_load_key_value_from_file (exampleWorld (some "HOST=h\nFOO=bar\nFOO=bar\n") (fun _ => none))
    none "/app/.env" ["HOST=h", "FOO=bar", "FOO=bar"]
    [⟨"HOST", Kind.string, true, FieldValue.str ""⟩] []
    ⟨"FOO", Kind.string, true, FieldValue.str ""⟩ "bar"
    (by decide) (by decide) (by decide) (by decide) (by decide) (by decide) (by decide)
    (by decide)).trans (by decide)

/-- C8: for a record whose fields are all exported strings, when no file
exists at the resolved path and the environment has the variable named after
one of the fields set to `v`, `Load` succeeds and that field holds `v`. -/
theorem c8_load_from_environment (w : World) (ep : Option String) (p : String)
    (pre post : List Field) (foo : Field) (v : String)
    (hp : makeEnvPath w ep = Except.ok p) (he : envFileExists w p = false)
    (hfs : ∀ f ∈ pre ++ foo :: post, f.exported = true ∧ f.kind = Kind.string)
    (henv : w.env foo.name = some v) :
    Load w (some (GoValue.struct (pre ++ foo :: post))) ep
      = (Res.ok (),
          some (GoValue.struct
            (pre.map (assignField (readEnvFromOS w ((pre ++ foo :: post).map Field.name)))
              ++ { foo with value := FieldValue.str v }
              :: post.map
                  (assignField (readEnvFromOS w ((pre ++ foo :: post).map Field.name)))))) := by
  have hvm : readEnvFromOS w ((pre ++ foo :: post).map Field.name) foo.name = some v := by
    unfold readEnvFromOS
    rw [foldl_getenv]
    simp [os_Getenv, henv]
  rw [Load_os_branch w _ ep p hp he, assignConfFields_ok _ _ (fun f hf _ => hfs f hf)]
  simp only [List.map_append, List.map_cons] at hvm ⊢
  simp [assignField, hvm, Field.setString]

/-- C8 on the record `FOO string; BAR string` with `FOO=envval` in the
environment and no env file. -/
theorem c8_load_from_environment_witness :
    Load (exampleWorld none (fun n => if n = "FOO" then some "envval" else none))
        (some (GoValue.struct [⟨"FOO", Kind.string, true, FieldValue.str ""⟩,
          ⟨"BAR", Kind.string, true, FieldValue.str "x"⟩])) none
      = (Res.ok (),
          some (GoValue.struct [⟨"FOO", Kind.string, true, FieldValue.str "envval"⟩,
            ⟨"BAR", Kind.string, true, FieldValue.str ""⟩])) :=
  (c8_load_from_environment
    (exampleWorld none (fun n => if n = "FOO" then some "envval" else none))
    none "/app/.env" [] [⟨"BAR", Kind.string, true, FieldValue.str "x"⟩]
    ⟨"FOO", Kind.string, true, FieldValue.str ""⟩ "envval"
    (by decide) (by decide) (by decide) (by decide)).trans (by decide)

/-- C9, as stated, fails when no env file exists and `BAZ` is not a string
field: with neither a file nor an environment variable `BAZ`, `Load` on the
record `BAZ int` returns an error. -/
theorem c9_unset_non_string_field_fails :
    makeEnvPath (exampleWorld none (fun _ => none)) none = Except.ok "/app/.env"
      ∧ envFileExists (exampleWorld none (fun _ => none)) "/app/.env" = false
      ∧ (exampleWorld none (fun _ => none)).env "BAZ" = none
      ∧ FieldValue.other 0 = zeroValue Kind.int
      ∧ Load (exampleWorld none (fun _ => none))
          (some (GoValue.struct [⟨"BAZ", Kind.int, true, FieldValue.other 0⟩])) none
        = (Res.err ⟨"unsupported field type for field BAZ"⟩,
            some (GoValue.struct [⟨"BAZ", Kind.int, true, FieldValue.other 0⟩])) := by
  decide

/-- C9, amended: let a record have a field `baz` at its zero value, the other
fields being exported strings, and let the environment not set the variable
named after `baz`. When the env file exists and is read without error into a
map without that key, `Load` succeeds and `baz` is unchanged, whatever its
type. When no env file exists, `Load` succeeds and `baz` is unchanged if `baz`
is an exported string field; if `baz` is an exported field of another type,
`Load` returns the error naming `baz` (and `baz` is unchanged). -/
theorem c9_absent_key_keeps_zero_value (w : World) (ep : Option String) (p : String)
    (pre post : List Field) (baz : Field)
    (hp : makeEnvPath w ep = Except.ok p)
    (hothers : ∀ f ∈ pre ++ post, f.exported = true ∧ f.kind = Kind.string)
    (hzero : baz.value = zeroValue baz.kind)
    (henv : w.env baz.name = none) :
    (∀ vm : ValueMap, envFileExists w p = true → readEnvFromFile w p = Except.ok vm →
        vm baz.name = none →
        Load w (some (GoValue.struct (pre ++ baz :: post))) ep
          = (Res.ok (),
              some (GoValue.struct
                (pre.map (assignField vm) ++ baz :: post.map (assignField vm)))))
      ∧ (envFileExists w p = false → baz.exported = true → baz.kind = Kind.string →
          Load w (some (GoValue.struct (pre ++ baz :: post))) ep
            = (Res.ok (),
                some (GoValue.struct
                  (pre.map (assignField (readEnvFromOS w ((pre ++ baz :: post).map Field.name)))
                    ++ baz
                    :: post.map
                        (assignField
                          (readEnvFromOS w ((pre ++ baz :: post).map Field.name)))))))
      ∧ (envFileExists w p = false → baz.exported = true → baz.kind ≠ Kind.string →
          Load w (some (GoValue.struct (pre ++ baz :: post))) ep
            = (Res.err (fieldError baz),
                some (GoValue.struct
                  (pre.map (assignField (readEnvFromOS w ((pre ++ baz :: post).map Field.name)))
                    ++ baz :: post)))) := by
  have hpre : ∀ f ∈ pre, f.exported = true ∧ f.kind = Kind.string :=
    fun f hf => hothers f (List.mem_append_left _ hf)
  have hpost : ∀ f ∈ post, f.exported = true ∧ f.kind = Kind.string :=
    fun f hf => hothers f (List.mem_append_right _ hf)
  have hvm : readEnvFromOS w ((pre ++ baz :: post).map Field.name) baz.name = some "" := by
    unfold readEnvFromOS
    rw [foldl_getenv]
    simp [os_Getenv, henv]
  refine ⟨?_, ?_, ?_⟩
  · intro vm he hr hnone
    rw [Load_file_branch w _ ep p vm hp he hr, assignConfFields_ok]
    · simp [assignField, hnone]
    · intro f hf hne
      rcases List.mem_append.mp hf with hf | hf
      · exact hpre f hf
      · rcases List.mem_cons.mp hf with rfl | hf
        · exact absurd hnone hne
        · exact hpost f hf
  · intro he hex hk
    rw [Load_os_branch w _ ep p hp he, assignConfFields_ok]
    · have hb : assignField (readEnvFromOS w ((pre ++ baz :: post).map Field.name)) baz
          = baz := by
        simp only [assignField, hvm]
        exact setString_zero baz hk hzero
      simp only [List.map_append, List.map_cons] at hb ⊢
      rw [hb]
    · intro f hf _
      rcases List.mem_append.mp hf with hf | hf
      · exact hpre f hf
      · rcases List.mem_cons.mp hf with rfl | hf
        · exact ⟨hex, hk⟩
        · exact hpost f hf
  · intro he _ hk
    rw [Load_os_branch w _ ep p hp he, assignConfFields_struct,
      assignLoop_stops _ baz post "" hk hvm pre hpre]

/-- C9, amended, in its three cases: the record `FOO string; BAZ int` with
the file `FOO=bar`; the record `BAZ string` without file; the record
`FOO string; BAZ int` without file. -/
theorem c9_absent_key_keeps_zero_value_witness :
    Load (exampleWorld (some "FOO=bar\n") (fun _ => none))
        (some (GoValue.struct [⟨"FOO", Kind.string, true, FieldValue.str ""⟩,
          ⟨"BAZ", Kind.int, true, FieldValue.other 0⟩])) none
      = (Res.ok (),
          some (GoValue.struct [⟨"FOO", Kind.string, true, FieldValue.str "bar"⟩,
            ⟨"BAZ", Kind.int, true, FieldValue.other 0⟩]))
    ∧ Load (exampleWorld none (fun _ => none))
        (some (GoValue.struct [⟨"BAZ", Kind.string, true, FieldValue.str ""⟩])) none
      = (Res.ok (), some (GoValue.struct [⟨"BAZ", Kind.string, true, FieldValue.str ""⟩]))
    ∧ Load (exampleWorld none (fun n => if n = "FOO" then some "e" else none))
        (some (GoValue.struct [⟨"FOO", Kind.string, true, FieldValue.str ""⟩,
          ⟨"BAZ", Kind.int, true, FieldValue.other 0⟩])) none
      = (Res.err ⟨"unsupported field type for field BAZ"⟩,
          some (GoValue.struct [⟨"FOO", Kind.string, true, FieldValue.str "e"⟩,
            ⟨"BAZ", Kind.int, true, FieldValue.other 0⟩])) :=
  ⟨((c9_absent_key_keeps_zero_value (exampleWorld (some "FOO=bar\n") (fun _ => none)) none
        "/app/.env" [⟨"FOO", Kind.string, true, FieldValue.str ""⟩] []
        ⟨"BAZ", Kind.int, true, FieldValue.other 0⟩
        (by decide) (by decide) (by decide) (by decide)).1
      (makeValueMap ["FOO=bar"]) (by decide)
      (readEnvFromFile_of_readLines _ _ ["FOO=bar"] (by decide)) (by decide)).trans (by decide),
    ((c9_absent_key_keeps_zero_value (exampleWorld none (fun _ => none)) none
        "/app/.env" [] [] ⟨"BAZ", Kind.string, true, FieldValue.str ""⟩
        (by decide) (by decide) (by decide) (by decide)).2.1
      (by decide) (by decide) (by decide)).trans (by decide),
    ((c9_absent_key_keeps_zero_value
        (exampleWorld none (fun n => if n = "FOO" then some "e" else none)) none
        "/app/.env" [⟨"FOO", Kind.string, true, FieldValue.str ""⟩] []
        ⟨"BAZ", Kind.int, true, FieldValue.other 0⟩
        (by decide) (by decide) (by decide) (by decide)).2.2
      (by decide) (by decide) (by decide)).trans (by decide)⟩

/-- C10: when the env file exists at the resolved path, `Load` returns the
same error and leaves the same record under any two process environments; and
when the file is read into a map, every field whose name is not a key of that
map is left as it was, whatever the environment holds. -/
theorem c10_file_branch_ignores_environment (w : World) (env1 env2 : String → Option String)
    (c : Option GoValue) (ep : Option String) (p : String)
    (hp : makeEnvPath w ep = Except.ok p) (he : envFileExists w p = true) :
    Load { w with env := env1 } c ep = Load { w with env := env2 } c ep
      ∧ ∀ (fs : List Field) (vm : ValueMap), c = some (GoValue.struct fs) →
          readEnvFromFile w p = Except.ok vm →
          ∃ fs2 : List Field,
            (Load { w with env := env1 } c ep).2 = some (GoValue.struct fs2)
              ∧ List.Forall₂ (fun f g => vm f.name = none → g = f) fs fs2 := by
  have h1 : Load { w with env := env1 } c ep
      = match readEnvFromFile w p with
        | Except.error err => (Res.err err, c)
        | Except.ok vm => assignConfFields c vm :=
    Load_file_exists { w with env := env1 } c ep p hp he
  have h2 : Load { w with env := env2 } c ep
      = match readEnvFromFile w p with
        | Except.error err => (Res.err err, c)
        | Except.ok vm => assignConfFields c vm :=
    Load_file_exists { w with env := env2 } c ep p hp he
  refine ⟨h1.trans h2.symm, ?_⟩
  intro fs vm hc hr
  rw [h1, hr, hc]
  exact ⟨(assignLoop vm fs).2, rfl, assignLoop_untouched vm fs⟩

/-- C10 on the record `FOO string; BAZ string` with the file `FOO=bar`: `BAZ`
keeps its value although the environment sets `BAZ`. -/
theorem c10_file_branch_ignores_environment_witness :
    Load { exampleWorld (some "FOO=bar\n") (fun _ => none) with
            env := fun n => if n = "BAZ" then some "set" else none }
        (some (GoValue.struct [⟨"FOO", Kind.string, true, FieldValue.str ""⟩,
          ⟨"BAZ", Kind.string, true, FieldValue.str "keep"⟩])) none
      = (Res.ok (),
          some (GoValue.struct [⟨"FOO", Kind.string, true, FieldValue.str "bar"⟩,
            ⟨"BAZ", Kind.string, true, FieldValue.str "keep"⟩])) :=
  (c10_file_branch_ignores_environment (exampleWorld (some "FOO=bar\n") (fun _ => none))
    (fun n => if n = "BAZ" then some "set" else none) (fun _ => none)
    (some (GoValue.struct [⟨"FOO", Kind.string, true, FieldValue.str ""⟩,
      ⟨"BAZ", Kind.string, true, FieldValue.str "keep"⟩])) none "/app/.env"
    (by decide) (by decide)).1.trans (by decide)

/-! ## Error paths of `Load` -/

/-- C11 at the failing input: `Load` on a nil pointer panics, both when no env
file exists and when one exists and is read; no error value is returned. -/
theorem c11_nil_reference_panics :
    Load (exampleWorld none (fun _ => none)) none none
        = (Res.panic "reflect: call of reflect.Value.Type on zero Value", none)
      ∧ Load (exampleWorld (some "FOO=bar\n") (fun _ => none)) none none
        = (Res.panic "reflect: call of reflect.Value.Type on zero Value", none)
      ∧ getTypeOfPtr (AnyVal.pointer none)
        = Res.panic "reflect: call of reflect.Value.Type on zero Value"
      ∧ getTypeOfPtr AnyVal.nilIface = Res.err ⟨"getTypeOfPtr, generic was null"⟩ := by
  decide

/-- C12: on a non-nil pointer to a value whose type is not a struct, `Load`
returns an error and leaves the value unchanged, in every world: whether the
working directory resolves or not, whether the env file exists or not, and
whatever the environment holds. -/
theorem c12_non_struct_fails (w : World) (k : Kind) (enc : Nat) (ep : Option String)
    (hk : k ≠ Kind.struct) :
    ∃ e : GoError,
      Load w (some (GoValue.other k enc)) ep = (Res.err e, some (GoValue.other k enc)) := by
  unfold Load
  cases hp : makeEnvPath w ep with
  | error err => exact ⟨err, rfl⟩
  | ok envPath =>
    by_cases he : envFileExists w envPath = true
    · simp only [he, if_true]
      cases hr : readEnvFromFile w envPath with
      | error err => exact ⟨err, rfl⟩
      | ok vm =>
        refine ⟨⟨"input must be a struct pointer"⟩, ?_⟩
        simp [assignConfFields, hk]
    · refine ⟨⟨"config can only be mapped to struct"⟩, ?_⟩
      simp [he, getConfFields, getTypeOfPtr, GoValue.typeOf, GoType.kind, hk]

/-- C12 on a pointer to an `int`, without env file and with one. -/
theorem c12_non_struct_fails_witness :
    Kind.int ≠ Kind.struct
      ∧ (∃ e : GoError,
          Load (exampleWorld none (fun _ => none)) (some (GoValue.other Kind.int 7)) none
            = (Res.err e, some (GoValue.other Kind.int 7)))
      ∧ (∃ e : GoError,
          Load (exampleWorld (some "FOO=bar\n") (fun _ => none))
              (some (GoValue.other Kind.int 7)) none
            = (Res.err e, some (GoValue.other Kind.int 7))) :=
  ⟨by decide,
    c12_non_struct_fails (exampleWorld none (fun _ => none)) Kind.int 7 none (by decide),
    c12_non_struct_fails (exampleWorld (some "FOO=bar\n") (fun _ => none)) Kind.int 7 none
      (by decide)⟩

/-- C13: when the working directory cannot be determined, or the env file
exists at the resolved path and opening it fails, or scanning it fails (a line
too long for the scanner, or a read error), `Load` returns that error and
leaves the record as it was, whatever the environment holds. -/
theorem c13_read_failure_aborts (w : World) (env1 : String → Option String)
    (c : Option GoValue) (ep : Option String) (e : GoError)
    (h : w.getwd = Except.error e
      ∨ ∃ p : String, makeEnvPath w ep = Except.ok p ∧ envFileExists w p = true
          ∧ (w.openFile p = Except.error e
            ∨ ∃ file : OpenFile, w.openFile p = Except.ok file
                ∧ (scanLines file.content = Except.error e
                  ∨ ((∃ lines, scanLines file.content = Except.ok lines)
                      ∧ file.readErr = some e)))) :
    Load { w with env := env1 } c ep = (Res.err e, c) := by
  rcases h with h | ⟨p, hp, he, h⟩
  · unfold Load makeEnvPath
    simp [h]
  · have hp1 : makeEnvPath { w with env := env1 } ep = Except.ok p := hp
    have he1 : envFileExists { w with env := env1 } p = true := he
    rw [Load_file_exists _ c ep p hp1 he1]
    have hr : readEnvFromFile { w with env := env1 } p = Except.error e := by
      unfold readEnvFromFile readLines
      rcases h with h | ⟨file, hf, h⟩
      · simp [h]
      · rcases h with h | ⟨⟨lines, hl⟩, h⟩
        · simp [hf, h]
        · simp [hf, hl, h]
    rw [hr]

/-- C13 in three worlds: the working directory is gone; the file exists but
cannot be opened; the file is opened and a read error ends the stream. The
environment sets `FOO` each time, and the field `FOO` keeps its value. -/
theorem c13_read_failure_aborts_witness :
    Load { exampleWorld none (fun _ => none) with
            getwd := Except.error ⟨"getwd: no such file or directory"⟩,
            env := fun _ => some "envval" }
        (some (GoValue.struct [⟨"FOO", Kind.string, true, FieldValue.str "old"⟩])) none
      = (Res.err ⟨"getwd: no such file or directory"⟩,
          some (GoValue.struct [⟨"FOO", Kind.string, true, FieldValue.str "old"⟩]))
    ∧ Load { exampleWorld (some "FOO=bar\n") (fun _ => none) with
            openFile := fun _ => Except.error ⟨"open /app/.env: permission denied"⟩,
            env := fun _ => some "envval" }
        (some (GoValue.struct [⟨"FOO", Kind.string, true, FieldValue.str "old"⟩])) none
      = (Res.err ⟨"open /app/.env: permission denied"⟩,
          some (GoValue.struct [⟨"FOO", Kind.string, true, FieldValue.str "old"⟩]))
    ∧ Load { exampleWorld (some "FOO=bar\n") (fun _ => none) with
            openFile := fun _ =>
              Except.ok ⟨"FOO=bar\n", some ⟨"read /app/.env: input/output error"⟩⟩,
            env := fun _ => some "envval" }
        (some (GoValue.struct [⟨"FOO", Kind.string, true, FieldValue.str "old"⟩])) none
      = (Res.err ⟨"read /app/.env: input/output error"⟩,
          some (GoValue.struct [⟨"FOO", Kind.string, true, FieldValue.str "old"⟩])) :=
  ⟨c13_read_failure_aborts
      { exampleWorld none (fun _ => none) with
        getwd := Except.error ⟨"getwd: no such file or directory"⟩ }
      (fun _ => some "envval") _ none _ (Or.inl rfl),
    c13_read_failure_aborts
      { exampleWorld (some "FOO=bar\n") (fun _ => none) with
        openFile := fun _ => Except.error ⟨"open /app/.env: permission denied"⟩ }
      (fun _ => some "envval") _ none _
      (Or.inr ⟨"/app/.env", by decide, by decide, Or.inl rfl⟩),
    c13_read_failure_aborts
      { exampleWorld (some "FOO=bar\n") (fun _ => none) with
        openFile := fun _ =>
          Except.ok ⟨"FOO=bar\n", some ⟨"read /app/.env: input/output error"⟩⟩ }
      (fun _ => some "envval") _ none _
      (Or.inr ⟨"/app/.env", by decide, by decide,
        Or.inr ⟨_, rfl, Or.inr ⟨⟨["FOO=bar"], by decide⟩, rfl⟩⟩⟩)⟩

/-- C15: `makeEnvPath` with no override equals `makeEnvPath` with the override
`.env`, and so `Load` returns the same result and leaves the same record with
either, for every record and world. -/
theorem c15_default_override (w : World) (c : Option GoValue) :
    makeEnvPath w none = makeEnvPath w (some ".env")
      ∧ Load w c none = Load w c (some ".env") :=
  ⟨rfl, rfl⟩

/-! ## The line-length bound of the scanner -/

theorem utf8ByteSize_replicate_x (n : Nat) :
    (String.mk (List.replicate n 'x')).utf8ByteSize = n := by
  have hx : Char.utf8Size 'x' = 1 := by decide
  have hgo : ∀ m : Nat, String.utf8ByteSize.go (List.replicate m 'x') = m := by
    intro m
    induction m with
    | zero => rfl
    | succ m ih =>
      show String.utf8ByteSize.go (List.replicate m 'x') + Char.utf8Size 'x' = m + 1
      rw [ih, hx]
  exact hgo n

theorem rawLines_of_no_newline (l : List Char) (h : l.count (Char.ofNat 10) = 0)
    (hne : l ≠ []) : rawLines l = [l] := by
  unfold rawLines
  simp [splitChars_of_count_zero _ _ h, hne]

theorem scanLines_ok (content : String)
    (h : ∀ l ∈ rawLines content.data, (String.mk l).utf8ByteSize < maxScanTokenSize) :
    scanLines content = Except.ok (fileLines content) := by
  unfold scanLines fileLines
  have hall : (rawLines content.data).all
      (fun l => decide ((String.mk l).utf8ByteSize < maxScanTokenSize)) = true := by
    rw [List.all_eq_true]
    intro l hl
    simpa using h l hl
  simp only [hall, if_true]

theorem scanLines_too_long (content : String) (l : List Char)
    (hl : l ∈ rawLines content.data)
    (h : maxScanTokenSize ≤ (String.mk l).utf8ByteSize) :
    scanLines content = Except.error ErrTooLong := by
  unfold scanLines
  have hall : ¬ (rawLines content.data).all
      (fun l => decide ((String.mk l).utf8ByteSize < maxScanTokenSize)) = true := by
    rw [List.all_eq_true]
    intro hall
    have hlt : (String.mk l).utf8ByteSize < maxScanTokenSize := of_decide_eq_true (hall l hl)
    omega
  simp only [hall, if_false]
  rfl

theorem rawLines_longLine : rawLines longLine.data = [longLine.data] := by
  apply rawLines_of_no_newline
  · unfold longLine
    rw [List.count_eq_zero]
    intro hmem
    have := List.eq_of_mem_replicate hmem
    exact absurd this (by decide)
  · show List.replicate maxScanTokenSize 'x' ≠ []
    intro h0
    have hlen := congrArg List.length h0
    rw [List.length_replicate] at hlen
    exact absurd hlen (by decide)

theorem scanLines_longLine : scanLines longLine = Except.error ErrTooLong := by
  apply scanLines_too_long longLine longLine.data
  · rw [rawLines_longLine]
    exact List.mem_singleton.mpr rfl
  · show maxScanTokenSize ≤ (String.mk (List.replicate maxScanTokenSize 'x')).utf8ByteSize
    rw [utf8ByteSize_replicate_x]

theorem readEnvFromFile_of_scan_error (w : World) (p : String) (file : OpenFile)
    (e : GoError) (hopen : w.openFile p = Except.ok file)
    (hscan : scanLines file.content = Except.error e) :
    readEnvFromFile w p = Except.error e := by
  unfold readEnvFromFile readLines
  simp [hopen, hscan]

theorem readEnvFromFile_of_scan_ok (w : World) (p : String) (file : OpenFile)
    (lines : List String) (hopen : w.openFile p = Except.ok file)
    (hscan : scanLines file.content = Except.ok lines) (hread : file.readErr = none) :
    readEnvFromFile w p = Except.ok (makeValueMap lines) := by
  unfold readEnvFromFile readLines
  simp [hopen, hscan, hread]

theorem openFile_exampleWorld (content : String) (env : String → Option String) :
    (exampleWorld (some content) env).openFile "/app/.env" = Except.ok ⟨content, none⟩ := by
  simp [exampleWorld]

/-- C14, as stated, fails on a readable file that holds one line of 65536
bytes: `readEnvFromFile` returns the scan error `bufio.ErrTooLong`. -/
theorem c14_long_line_fails :
    (exampleWorld (some longLine) (fun _ => none)).openFile "/app/.env"
        = Except.ok ⟨longLine, none⟩
      ∧ longLine.utf8ByteSize = maxScanTokenSize
      ∧ maxScanTokenSize = 65536
      ∧ readEnvFromFile (exampleWorld (some longLine) (fun _ => none)) "/app/.env"
        = Except.error ErrTooLong :=
  ⟨openFile_exampleWorld longLine _, utf8ByteSize_replicate_x maxScanTokenSize, by decide,
    readEnvFromFile_of_scan_error _ _ ⟨longLine, none⟩ _ (openFile_exampleWorld longLine _)
      scanLines_longLine⟩

/-- C14, amended: on a file that opens and delivers its content without read
error, `readEnvFromFile` succeeds with the value map built from all of the
file's lines when every raw line is shorter than `maxScanTokenSize` (65536)
bytes, and fails with `bufio.ErrTooLong` when some raw line has that many
bytes or more. -/
theorem c14_read_bounded_lines (w : World) (p : String) (file : OpenFile)
    (hopen : w.openFile p = Except.ok file) (hread : file.readErr = none) :
    ((∀ l ∈ rawLines file.content.data, (String.mk l).utf8ByteSize < maxScanTokenSize) →
        readEnvFromFile w p = Except.ok (makeValueMap (fileLines file.content)))
      ∧ ((∃ l ∈ rawLines file.content.data, maxScanTokenSize ≤ (String.mk l).utf8ByteSize) →
          readEnvFromFile w p = Except.error ErrTooLong) := by
  constructor
  · intro h
    exact readEnvFromFile_of_scan_ok w p file _ hopen (scanLines_ok file.content h) hread
  · intro h
    obtain ⟨l, hl, hlen⟩ := h
    exact readEnvFromFile_of_scan_error w p file _ hopen
      (scanLines_too_long file.content l hl hlen)

/-- C14, amended, on the file with the lines `FOO=bar` and `X`, and on the
file that holds one line of 65536 bytes. -/
theorem c14_read_bounded_lines_witness :
    fileLines "FOO=bar\r\nX\n" = ["FOO=bar", "X"]
      ∧ readEnvFromFile (exampleWorld (some "FOO=bar\r\nX\n") (fun _ => none)) "/app/.env"
        = Except.ok (makeValueMap (fileLines "FOO=bar\r\nX\n"))
      ∧ readEnvFromFile (exampleWorld (some longLine) (fun _ => none)) "/app/.env"
        = Except.error ErrTooLong :=
  ⟨by decide,
    (c14_read_bounded_lines (exampleWorld (some "FOO=bar\r\nX\n") (fun _ => none)) "/app/.env"
      ⟨"FOO=bar\r\nX\n", none⟩ (by decide) rfl).1 (by decide),
    (c14_read_bounded_lines (exampleWorld (some longLine) (fun _ => none)) "/app/.env"
      ⟨longLine, none⟩ (openFile_exampleWorld longLine _) rfl).2
      ⟨longLine.data, by rw [rawLines_longLine]; exact List.mem_singleton.mpr rfl,
        Nat.le_of_eq (utf8ByteSize_replicate_x maxScanTokenSize).symm⟩⟩

/-! ## The environment branch of `Load` -/

theorem assignLoop_no_panic (values : ValueMap) :
    ∀ fs : List Field,
      (assignLoop values fs).1 = Res.ok () ∨ ∃ e : GoError, (assignLoop values fs).1 = Res.err e := by
  intro fs
  induction fs with
  | nil => exact Or.inl rfl
  | cons f rest ih =>
    unfold assignLoop
    cases hv : values f.name with
    | none => simpa using ih
    | some v =>
      by_cases he : f.exported = false
      · simp [he]
      · by_cases hk : f.kind = Kind.string
        · simpa [he, hk] using ih
        · simp [he, hk]

theorem assignLoop_ok_iff (values : ValueMap) :
    ∀ fs : List Field, (∀ f ∈ fs, values f.name ≠ none) →
      ((assignLoop values fs).1 = Res.ok ()
        ↔ ∀ f ∈ fs, f.exported = true ∧ f.kind = Kind.string) := by
  intro fs hkeys
  constructor
  · induction fs with
    | nil => intro _ f hf; simp at hf
    | cons f rest ih =>
      intro hok
      have hrest := ih (fun g hg => hkeys g (List.mem_cons_of_mem _ hg))
      obtain ⟨v, hv⟩ := Option.ne_none_iff_exists'.mp (hkeys f (List.mem_cons_self _ _))
      unfold assignLoop at hok
      simp only [hv] at hok
      by_cases he : f.exported = false
      · simp [he] at hok
      · by_cases hk : f.kind = Kind.string
        · simp only [he, hk, if_true, if_false] at hok
          intro g hg
          rcases List.mem_cons.mp hg with rfl | hg
          · exact ⟨by simpa using he, hk⟩
          · exact hrest hok g hg
        · simp [he, hk] at hok
  · intro hall
    rw [assignLoop_ok values fs (fun f hf _ => hall f hf)]

theorem readEnvFromOS_of_mem (w : World) (names : List String) (k : String)
    (h : k ∈ names) : readEnvFromOS w names k = some (os_Getenv w k) := by
  unfold readEnvFromOS
  rw [foldl_getenv]
  simp [h]

/-- C16: when the working directory resolves and no env file exists at the
resolved path, `Load` on a struct record succeeds if and only if every field
of the record is an exported field of string kind, whatever the environment
holds; otherwise it returns an error; every field name is a key of the value
map, with the empty string as value when the variable is unset. -/
theorem c16_os_branch_success_iff (w : World) (ep : Option String) (p : String)
    (fs : List Field) (hp : makeEnvPath w ep = Except.ok p)
    (he : envFileExists w p = false) :
    ((Load w (some (GoValue.struct fs)) ep).1 = Res.ok ()
        ↔ ∀ f ∈ fs, f.exported = true ∧ f.kind = Kind.string)
      ∧ ((Load w (some (GoValue.struct fs)) ep).1 = Res.ok ()
          ∨ ∃ e : GoError, (Load w (some (GoValue.struct fs)) ep).1 = Res.err e)
      ∧ ∀ f ∈ fs, readEnvFromOS w (fs.map Field.name) f.name
          = some (match w.env f.name with
            | some v => v
            | none => "") := by
  have hkey : ∀ f ∈ fs, readEnvFromOS w (fs.map Field.name) f.name
      = some (os_Getenv w f.name) :=
    fun f hf => readEnvFromOS_of_mem w _ _ (List.mem_map_of_mem _ hf)
  rw [Load_os_branch w fs ep p hp he, assignConfFields_struct]
  refine ⟨?_, ?_, ?_⟩
  · exact assignLoop_ok_iff _ fs (fun f hf => by rw [hkey f hf]; simp)
  · exact assignLoop_no_panic _ fs
  · intro f hf
    rw [hkey f hf]
    unfold os_Getenv
    cases w.env f.name <;> rfl

/-- C16 on the record `FOO string; BAZ int` with an empty environment and no
env file: `Load` does not succeed although `BAZ` is unset. -/
theorem c16_os_branch_success_iff_witness :
    (Load (exampleWorld none (fun _ => none))
        (some (GoValue.struct [⟨"FOO", Kind.string, true, FieldValue.str ""⟩,
          ⟨"BAZ", Kind.int, true, FieldValue.other 0⟩])) none).1 ≠ Res.ok ()
      ∧ (Load (exampleWorld none (fun _ => none))
        (some (GoValue.struct [⟨"FOO", Kind.string, true, FieldValue.str ""⟩])) none).1
          = Res.ok () :=
  ⟨fun h => absurd
      ((c16_os_branch_success_iff (exampleWorld none (fun _ => none)) none "/app/.env"
        [⟨"FOO", Kind.string, true, FieldValue.str ""⟩,
          ⟨"BAZ", Kind.int, true, FieldValue.other 0⟩] (by decide) (by decide)).1.mp h)
      (by decide),
    (c16_os_branch_success_iff (exampleWorld none (fun _ => none)) none "/app/.env"
      [⟨"FOO", Kind.string, true, FieldValue.str ""⟩] (by decide) (by decide)).1.mpr
      (by decide)⟩

/-- C17: when the working directory resolves and no env file exists at the
resolved path, `Load` on a record whose fields are all exported strings
succeeds and leaves every field with the environment's value for the field's
name, the empty string when the variable is unset, whatever the field held. -/
theorem c17_os_branch_overwrites (w : World) (ep : Option String) (p : String)
    (fs : List Field) (hp : makeEnvPath w ep = Except.ok p)
    (he : envFileExists w p = false)
    (hfs : ∀ f ∈ fs, f.exported = true ∧ f.kind = Kind.string) :
    Load w (some (GoValue.struct fs)) ep
      = (Res.ok (),
          some (GoValue.struct
            (fs.map (fun f =>
              { f with
                value := FieldValue.str (match w.env f.name with
                  | some v => v
                  | none => "") })))) := by
  rw [Load_os_branch w fs ep p hp he, assignConfFields_ok _ _ (fun f hf _ => hfs f hf)]
  have hmap : fs.map (assignField (readEnvFromOS w (fs.map Field.name)))
      = fs.map (fun f =>
          { f with
            value := FieldValue.str (match w.env f.name with
              | some v => v
              | none => "") }) := by
    apply List.map_congr_left
    intro f hf
    have hk := readEnvFromOS_of_mem w (fs.map Field.name) f.name (List.mem_map_of_mem _ hf)
    simp only [assignField, hk, Field.setString, os_Getenv]
    cases w.env f.name <;> rfl
  rw [hmap]

/-- C17 on the record `FOO string; BAR string` holding `old` and `keep`, with
only `FOO` set in the environment: `BAR` is overwritten with the empty string. -/
theorem c17_os_branch_overwrites_witness :
    Load (exampleWorld none (fun n => if n = "FOO" then some "envval" else none))
        (some (GoValue.struct [⟨"FOO", Kind.string, true, FieldValue.str "old"⟩,
          ⟨"BAR", Kind.string, true, FieldValue.str "keep"⟩])) none
      = (Res.ok (),
          some (GoValue.struct [⟨"FOO", Kind.string, true, FieldValue.str "envval"⟩,
            ⟨"BAR", Kind.string, true, FieldValue.str ""⟩])) :=
  (c17_os_branch_overwrites
    (exampleWorld none (fun n => if n = "FOO" then some "envval" else none)) none "/app/.env"
    [⟨"FOO", Kind.string, true, FieldValue.str "old"⟩,
      ⟨"BAR", Kind.string, true, FieldValue.str "keep"⟩]
    (by decide) (by decide) (by decide)).trans (by decide)

/-! ## The whole map of `makeValueMap`, and idempotence of `assignConfFields` -/

theorem foldl_step_find (k : String) :
    ∀ (lines : List String) (vm : ValueMap),
      lines.foldl makeValueMapStep vm k
        = match lines.reverse.find? (fun l => decide (lineKey l = k)) with
          | some l => some (lineValue l)
          | none => vm k := by
  intro lines
  induction lines with
  | nil => intro vm; rfl
  | cons l ls ih =>
    intro vm
    rw [List.foldl_cons, ih, List.reverse_cons, List.find?_append]
    cases hf : ls.reverse.find? (fun l => decide (lineKey l = k)) with
    | some x => rfl
    | none =>
      rw [makeValueMapStep_eq]
      by_cases hk : lineKey l = k
      · simp [ValueMap.set, hk]
      · simp [ValueMap.set, hk, Ne.symm hk]

theorem countEq_lineValue (line : String) : countEq (lineValue line) = 0 := by
  unfold lineValue
  by_cases h : countEq line = 1
  · rw [if_pos h]
    have hdec := lineKey_append_lineAfter line (by omega)
    have hcount : countEq line = countEq (lineKey line) + 1 + countEq (lineAfter line) := by
      conv_lhs => rw [hdec]
      unfold countEq
      simp [List.count_append]
      omega
    have hkey := countEq_lineKey line
    omega
  · rw [if_neg h]
    rfl

theorem assignLoop_cons_skip (values : ValueMap) (f : Field) (rest : List Field)
    (hv : values f.name = none) :
    assignLoop values (f :: rest)
      = ((assignLoop values rest).1, f :: (assignLoop values rest).2) := by
  rw [assignLoop]
  simp [hv]

theorem assignLoop_cons_set (values : ValueMap) (f : Field) (rest : List Field) (v : String)
    (hv : values f.name = some v) (he : f.exported = true) (hk : f.kind = Kind.string) :
    assignLoop values (f :: rest)
      = ((assignLoop values rest).1, f.setString v :: (assignLoop values rest).2) := by
  rw [assignLoop]
  simp [hv, he, hk]

theorem assignLoop_cons_fail (values : ValueMap) (f : Field) (rest : List Field) (v : String)
    (hv : values f.name = some v) (h : f.exported = false ∨ f.kind ≠ Kind.string) :
    assignLoop values (f :: rest) = (Res.err (fieldError f), f :: rest) := by
  rw [assignLoop]
  by_cases he : f.exported = false
  · simp [hv, he, fieldError]
  · have hk : f.kind ≠ Kind.string := h.resolve_left he
    have he2 : f.exported = true := by simpa using he
    simp [hv, he2, hk, fieldError]

theorem assignLoop_idem (values : ValueMap) :
    ∀ fs : List Field, assignLoop values (assignLoop values fs).2 = assignLoop values fs := by
  intro fs
  induction fs with
  | nil => rfl
  | cons f rest ih =>
    cases hv : values f.name with
    | none =>
      rw [assignLoop_cons_skip values f rest hv]
      show assignLoop values (f :: (assignLoop values rest).2) = _
      rw [assignLoop_cons_skip values f _ hv, ih]
    | some v =>
      by_cases hgood : f.exported = true ∧ f.kind = Kind.string
      · rw [assignLoop_cons_set values f rest v hv hgood.1 hgood.2]
        show assignLoop values (f.setString v :: (assignLoop values rest).2) = _
        rw [assignLoop_cons_set values (f.setString v) _ v hv hgood.1 hgood.2, ih]
        rfl
      · have hbad : f.exported = false ∨ f.kind ≠ Kind.string := by
          by_cases he : f.exported = true
          · exact Or.inr (fun hk => hgood ⟨he, hk⟩)
          · exact Or.inl (by simpa using he)
        have h1 := assignLoop_cons_fail values f rest v hv hbad
        rw [h1]
        exact h1

/-- C18: for every list of lines and every key `k`, the map of `makeValueMap`
has `k` as a key exactly when some line has key `k` (the text before its first
`=`, the whole line when it has none), and the value of `k` is the value of
the last such line: the text after the `=` when that line has exactly one
`=`, the empty string otherwise. In particular a line appended to the list
decides the value of its key. -/
theorem c18_last_line_decides (lines : List String) (k : String) :
    makeValueMap lines k
        = (lines.reverse.find? (fun l => decide (lineKey l = k))).map lineValue
      ∧ ((makeValueMap lines k).isSome = true ↔ ∃ l ∈ lines, lineKey l = k)
      ∧ (∀ l : String, makeValueMap (lines ++ [l]) (lineKey l) = some (lineValue l))
      ∧ (∀ l : String, lineValue l = if countEq l = 1 then lineAfter l else "") := by
  have hfind : ∀ ls : List String, makeValueMap ls k
      = (ls.reverse.find? (fun l => decide (lineKey l = k))).map lineValue := by
    intro ls
    unfold makeValueMap
    rw [foldl_step_find]
    cases ls.reverse.find? (fun l => decide (lineKey l = k)) <;> rfl
  refine ⟨hfind lines, ?_, ?_, ?_⟩
  · rw [hfind lines]
    simp [List.find?_isSome]
  · intro l
    unfold makeValueMap
    rw [foldl_step_find]
    simp
  · intro l
    rfl

/-- C19: no key and no value of the map returned by `makeValueMap` contains
the character `=`. -/
theorem c19_no_eq_in_map (lines : List String) (k v : String)
    (h : makeValueMap lines k = some v) : countEq k = 0 ∧ countEq v = 0 := by
  unfold makeValueMap at h
  rw [foldl_step_find] at h
  cases hf : lines.reverse.find? (fun l => decide (lineKey l = k)) with
  | none =>
    rw [hf] at h
    simp [ValueMap.empty] at h
  | some l =>
    rw [hf] at h
    have hkey : lineKey l = k := by
      have := List.find?_some hf
      simpa using this
    have hval : lineValue l = v := by
      simpa using h
    rw [← hkey, ← hval]
    exact ⟨countEq_lineKey l, countEq_lineValue l⟩

/-- C19 on the lines `A=B=C`, `K=v`, `==`: the value stored under `K`. -/
theorem c19_no_eq_in_map_witness :
    makeValueMap ["A=B=C", "K=v", "=="] "K" = some "v"
      ∧ countEq "K" = 0 ∧ countEq "v" = 0 :=
  ⟨by decide, c19_no_eq_in_map ["A=B=C", "K=v", "=="] "K" "v" (by decide)⟩

/-- C20: `assignConfFields` is idempotent: applied again with the same map to
the record the first application left, it returns the same result and leaves
the record as the first application left it. -/
theorem c20_assign_idempotent (s : Option GoValue) (values : ValueMap) :
    assignConfFields (assignConfFields s values).2 values = assignConfFields s values := by
  cases s with
  | none => rfl
  | some g =>
    cases g with
    | other k enc =>
      by_cases hk : k = Kind.struct
      · simp [assignConfFields, hk]
      · simp [assignConfFields, hk]
    | struct fs =>
      rw [assignConfFields_struct]
      show assignConfFields (some (GoValue.struct (assignLoop values fs).2)) values = _
      rw [assignConfFields_struct, assignLoop_idem]

end Goconf
